import Mathlib

/-!
# Verification of the filex/xsl document-editing core

Shallow embedding of the data-URI codec (`src/xsl/utils.py`), the
`FileEditor` operations of `src/xsl/editor.py` and `src/filex/cli.py`,
and proofs of the specification claims about them.

Conventions:
* Python `bytes` are `List Nat` with every entry `< 256`.
* Python `str` is Lean `String` (or `List Char` internally).
* A Python function that may raise is embedded as an `Option`/`Except`
  returning function, `none`/`.error` standing for the raised exception.
-/

/-! ## Base64 (Python `base64.b64encode` / `b64decode(validate=True)`) -/

/-- The standard base64 alphabet, as used by `base64.b64encode`. -/
def b64chars : List Char :=
  "ABCDEFGHIJKLMNOPQRSTUVWXYZabcdefghijklmnopqrstuvwxyz0123456789+/".toList

/-- Character of a 6-bit group. -/
def b64char (n : Nat) : Char := b64chars.getD n 'A'

def b64indexAux (c : Char) : List Char → Nat → Option Nat
  | [], _ => none
  | d :: ds, i => if d = c then some i else b64indexAux c ds (i + 1)

/-- Index of a character in the base64 alphabet (`none` when not a member). -/
def b64index (c : Char) : Option Nat := b64indexAux c b64chars 0

/-- Python `base64.b64encode`: groups of three bytes become four alphabet
characters; a final group of one or two bytes is padded with `=`. -/
def b64encode : List Nat → List Char
  | [] => []
  | [a] => [b64char (a / 4), b64char (a % 4 * 16), '=', '=']
  | [a, b] => [b64char (a / 4), b64char (a % 4 * 16 + b / 16), b64char (b % 16 * 4), '=']
  | a :: b :: c :: rest =>
      b64char (a / 4) :: b64char (a % 4 * 16 + b / 16) ::
      b64char (b % 16 * 4 + c / 64) :: b64char (c % 64) :: b64encode rest

/-- Python `base64.b64decode(_, validate=True)` on the canonical quad/padding
grammar: input is consumed in groups of four alphabet characters, with
`=`-padding allowed only in the final group. -/
def b64decode : List Char → Option (List Nat)
  | [] => some []
  | c1 :: c2 :: c3 :: c4 :: rest =>
    match b64index c1, b64index c2 with
    | some n1, some n2 =>
      if c3 = '=' then
        if c4 = '=' ∧ rest = [] then some [n1 * 4 + n2 / 16] else none
      else
        match b64index c3 with
        | some n3 =>
          if c4 = '=' then
            if rest = [] then some [n1 * 4 + n2 / 16, n2 % 16 * 16 + n3 / 4] else none
          else
            match b64index c4 with
            | some n4 =>
              (b64decode rest).map
                (fun tl => (n1 * 4 + n2 / 16) :: (n2 % 16 * 16 + n3 / 4) ::
                           (n3 % 4 * 64 + n4) :: tl)
            | none => none
        | none => none
    | _, _ => none
  | _ => none

theorem b64index_b64char : ∀ n, n < 64 → b64index (b64char n) = some n := by decide

theorem b64char_ne_eq : ∀ n, n < 64 → ¬ b64char n = '=' := by decide

/-- Decoding inverts encoding on byte lists. -/
theorem b64decode_b64encode (p : List Nat) (hp : ∀ b ∈ p, b < 256) :
    b64decode (b64encode p) = some p := by
  induction p using b64encode.induct with
  | case1 => simp [b64encode, b64decode]
  | case2 a =>
    have ha : a < 256 := hp a (by simp)
    have h1 := b64index_b64char (a / 4) (by omega)
    have h2 := b64index_b64char (a % 4 * 16) (by omega)
    simp [b64encode, b64decode, h1, h2]
    omega
  | case3 a b =>
    have ha : a < 256 := hp a (by simp)
    have hb : b < 256 := hp b (by simp)
    have h1 := b64index_b64char (a / 4) (by omega)
    have h2 := b64index_b64char (a % 4 * 16 + b / 16) (by omega)
    have h3 := b64index_b64char (b % 16 * 4) (by omega)
    have hne3 := b64char_ne_eq (b % 16 * 4) (by omega)
    simp [b64encode, b64decode, h1, h2, h3, hne3]
    omega
  | case4 a b c rest ih =>
    have ha : a < 256 := hp a (by simp)
    have hb : b < 256 := hp b (by simp)
    have hc : c < 256 := hp c (by simp)
    have hrest : ∀ x ∈ rest, x < 256 := by
      intro x hx; exact hp x (by simp [hx])
    have h1 := b64index_b64char (a / 4) (by omega)
    have h2 := b64index_b64char (a % 4 * 16 + b / 16) (by omega)
    have h3 := b64index_b64char (b % 16 * 4 + c / 64) (by omega)
    have h4 := b64index_b64char (c % 64) (by omega)
    have hne3 := b64char_ne_eq (b % 16 * 4 + c / 64) (by omega)
    have hne4 := b64char_ne_eq (c % 64) (by omega)
    simp [b64encode, b64decode, h1, h2, h3, h4, hne3, hne4, ih hrest]
    omega

/-! ## UTF-8 (Python `str.encode('utf-8')` / `bytes.decode('utf-8')`, strict) -/

/-- UTF-8 encoding of a single character (1 to 4 bytes). -/
def utf8EncodeChar (c : Char) : List Nat :=
  let n := c.toNat
  if n < 0x80 then [n]
  else if n < 0x800 then [0xC0 + n / 64, 0x80 + n % 64]
  else if n < 0x10000 then [0xE0 + n / 4096, 0x80 + n / 64 % 64, 0x80 + n % 64]
  else [0xF0 + n / 262144, 0x80 + n / 4096 % 64, 0x80 + n / 64 % 64, 0x80 + n % 64]

/-- Python `str.encode('utf-8')` over the character list of a string. -/
def utf8EncodeL : List Char → List Nat
  | [] => []
  | c :: cs => utf8EncodeChar c ++ utf8EncodeL cs

/-- Continuation byte `0x80..0xBF`. -/
def isCont (b : Nat) : Bool := 0x80 ≤ b && b < 0xC0

/-- Allowed second byte after a three-byte leader (excludes overlong forms
and surrogates, as Python's strict decoder does). -/
def e0Ok (b b2 : Nat) : Bool :=
  if b = 0xE0 then 0xA0 ≤ b2 && b2 ≤ 0xBF
  else if b = 0xED then 0x80 ≤ b2 && b2 ≤ 0x9F
  else isCont b2

/-- Allowed second byte after a four-byte leader (excludes overlong forms
and code points above U+10FFFF). -/
def f0Ok (b b2 : Nat) : Bool :=
  if b = 0xF0 then 0x90 ≤ b2 && b2 ≤ 0xBF
  else if b = 0xF4 then 0x80 ≤ b2 && b2 ≤ 0x8F
  else isCont b2

def utf8Char2 (b b2 : Nat) : Char := Char.ofNat ((b - 0xC0) * 64 + (b2 - 0x80))

def utf8Char3 (b b2 b3 : Nat) : Char :=
  Char.ofNat ((b - 0xE0) * 4096 + (b2 - 0x80) * 64 + (b3 - 0x80))

def utf8Char4 (b b2 b3 b4 : Nat) : Char :=
  Char.ofNat ((b - 0xF0) * 262144 + (b2 - 0x80) * 4096 + (b3 - 0x80) * 64 + (b4 - 0x80))

/-- Python `bytes.decode('utf-8')` with strict error handling. -/
def utf8DecodeL : List Nat → Option (List Char)
  | [] => some []
  | b :: rest =>
    if b < 0x80 then (utf8DecodeL rest).map (Char.ofNat b :: ·)
    else if 0xC2 ≤ b && b ≤ 0xDF then
      match rest with
      | b2 :: r2 =>
        if isCont b2 then (utf8DecodeL r2).map (utf8Char2 b b2 :: ·) else none
      | [] => none
    else if 0xE0 ≤ b && b ≤ 0xEF then
      match rest with
      | b2 :: b3 :: r3 =>
        if e0Ok b b2 && isCont b3 then
          (utf8DecodeL r3).map (utf8Char3 b b2 b3 :: ·)
        else none
      | _ => none
    else if 0xF0 ≤ b && b ≤ 0xF4 then
      match rest with
      | b2 :: b3 :: b4 :: r4 =>
        if f0Ok b b2 && isCont b3 && isCont b4 then
          (utf8DecodeL r4).map (utf8Char4 b b2 b3 b4 :: ·)
        else none
      | _ => none
    else none

/-! ## Percent-quoting (`urllib.parse.quote` with default `safe='/'`) -/

/-- Characters never quoted by `urllib.parse.quote`: ASCII letters,
digits, `_ . - ~`, plus the default safe character `/`. -/
def isQuoteSafe (b : Nat) : Bool :=
  (0x41 ≤ b && b ≤ 0x5A) || (0x61 ≤ b && b ≤ 0x7A) || (0x30 ≤ b && b ≤ 0x39) ||
  b = 0x5F || b = 0x2E || b = 0x2D || b = 0x7E || b = 0x2F

def hexDigit (n : Nat) : Char :=
  "0123456789ABCDEF".toList.getD n '0'

/-- Percent-escape of a single byte. -/
def quoteByte (b : Nat) : List Char :=
  if isQuoteSafe b then [Char.ofNat b] else ['%', hexDigit (b / 16), hexDigit (b % 16)]

def quoteBytes : List Nat → List Char
  | [] => []
  | b :: bs => quoteByte b ++ quoteBytes bs

/-- Python `urllib.parse.quote(s)`: UTF-8 encode, then percent-escape every
byte outside the safe set. -/
def pyQuote (s : List Char) : List Char := quoteBytes (utf8EncodeL s)

/-! ## The data-URI regular expression of `src/xsl/utils.py`

`DATA_URI_PATTERN` is
`^data:(?P<mime>[a-z]+/[a-z0-9\-+.]+)?(?P<charset>;charset=[a-z0-9\-]+)?(?P<base64>;base64)?,(?P<data>.*)$`
with `re.IGNORECASE`.  Because the character classes of the optional
groups exclude the delimiters `;` `,` `/`, the regex is matched by a
single deterministic left-to-right pass: a partially matching optional
group can never be traded for a later alternative, so greedy runs with
no backtracking compute exactly the match `re.match` finds. -/

/-- ASCII lower-casing, matching `re.IGNORECASE` on the ASCII pattern. -/
def lcChar (c : Char) : Char :=
  if 'A' ≤ c ∧ c ≤ 'Z' then Char.ofNat (c.toNat + 32) else c

/-- Case-insensitive literal match: strips `pat` (given in lower case)
from the front of `l`, returning the remainder. -/
def stripCI : List Char → List Char → Option (List Char)
  | [], l => some l
  | _ :: _, [] => none
  | p :: ps, c :: cs => if lcChar c = p then stripCI ps cs else none

def isAsciiAlpha (c : Char) : Bool :=
  ('a' ≤ c && c ≤ 'z') || ('A' ≤ c && c ≤ 'Z')

def isAsciiDigit (c : Char) : Bool := '0' ≤ c && c ≤ '9'

/-- Class `[a-z0-9\-+.]` under `IGNORECASE`. -/
def isMimeTail (c : Char) : Bool :=
  isAsciiAlpha c || isAsciiDigit c || c = '-' || c = '+' || c = '.'

/-- Class `[a-z0-9\-]` under `IGNORECASE`. -/
def isCharsetChar (c : Char) : Bool :=
  isAsciiAlpha c || isAsciiDigit c || c = '-'

/-- Optional group `(?P<mime>[a-z]+/[a-z0-9\-+.]+)?`: all-or-nothing. -/
def tryMime (l : List Char) : Option (List Char) × List Char :=
  let l1 := l.takeWhile isAsciiAlpha
  let r1 := l.dropWhile isAsciiAlpha
  if l1.isEmpty then (none, l)
  else
    match r1 with
    | '/' :: r2 =>
      let l2 := r2.takeWhile isMimeTail
      if l2.isEmpty then (none, l)
      else (some (l1 ++ '/' :: l2), r2.dropWhile isMimeTail)
    | _ => (none, l)

/-- Optional group `(?P<charset>;charset=[a-z0-9\-]+)?`; the stored value
is the part after `;charset=`. -/
def tryCharset (l : List Char) : Option (List Char) × List Char :=
  match stripCI ";charset=".toList l with
  | some r =>
    let cs := r.takeWhile isCharsetChar
    if cs.isEmpty then (none, l) else (some cs, r.dropWhile isCharsetChar)
  | none => (none, l)

/-- Optional group `(?P<base64>;base64)?`. -/
def tryB64 (l : List Char) : Bool × List Char :=
  match stripCI ";base64".toList l with
  | some r => (true, r)
  | none => (false, l)

/-- Group `(?P<data>.*)$` without `DOTALL`: the dot does not cross a newline,
and `$` also matches just before one trailing newline. -/
def matchDotStar (l : List Char) : Option (List Char) :=
  if l.all (· ≠ '\n') then some l
  else if l.dropLast.all (· ≠ '\n') ∧ l.getLast? = some '\n' then some l.dropLast
  else none

/-- The four captured groups of `DATA_URI_PATTERN`. -/
structure RawMatch where
  mimeGroup : Option (List Char)
  charsetGroup : Option (List Char)
  b64Group : Bool
  dataGroup : List Char
  deriving DecidableEq

/-- The regex match `DATA_URI_PATTERN.match(l)`. -/
def matchDataURI (l : List Char) : Option RawMatch :=
  match stripCI "data:".toList l with
  | none => none
  | some r0 =>
    let m := tryMime r0
    let cs := tryCharset m.2
    let b := tryB64 cs.2
    match b.2 with
    | ',' :: rest => (matchDotStar rest).map (fun d => ⟨m.1, cs.1, b.1, d⟩)
    | _ => none

/-! ## The data-URI codec of `src/xsl/utils.py` -/

/-- Function `is_data_uri` of `src/xsl/utils.py`. -/
def is_data_uri (s : String) : Bool := (matchDataURI s.data).isSome

/-- The dictionary returned by `parse_data_uri` (Python `bytes` as
`List Nat`). -/
structure DataURIValue where
  mime_type : String
  encoding : String
  charset : String
  is_base64 : Bool
  data : List Nat
  deriving DecidableEq

/-- Function `parse_data_uri`; `none` is the raised `ValueError` (either no regex
match or, with the `;base64` marker, invalid base64 data). -/
def parse_data_uri (s : String) : Option DataURIValue :=
  match matchDataURI s.data with
  | none => none
  | some r =>
    let mime := match r.mimeGroup with
      | some m => String.mk m
      | none => "text/plain"
    let charset := match r.charsetGroup with
      | some c => "charset=" ++ String.mk c
      | none => "charset=utf-8"
    if r.b64Group then
      match b64decode r.dataGroup with
      | none => none
      | some bytes => some ⟨mime, "base64", charset, true, bytes⟩
    else
      some ⟨mime, "utf-8", charset, false, utf8EncodeL r.dataGroup⟩

/-- Modelled from the spec: Python's codec registry (the machinery behind
`bytes.decode(charset)`) is an external collaborator; §4.1 fixes `utf-8`
as the default charset, and the model covers exactly that codec.  Other
charset names decode to `none`, standing for a registry the model does
not cover. -/
def pyDecode (charset : String) (data : List Nat) : Option (List Char) :=
  if charset = "utf-8" then utf8DecodeL data else none

/-- Function `create_data_uri`; `none` is a raised exception (a payload that is
not decodable under `charset` when `base64_encode` is false). -/
def create_data_uri (data : List Nat) (mime charset : String)
    (base64_encode : Bool) : Option String :=
  if base64_encode then
    some ("data:" ++ mime ++ ";charset=" ++ charset ++ ";base64," ++
          String.mk (b64encode data))
  else
    match pyDecode charset data with
    | none => none
    | some text =>
      some ("data:" ++ mime ++ ";charset=" ++ charset ++ "," ++
            String.mk (pyQuote text))

/-! ## Completeness of the matcher for the data-URI grammar -/

theorem takeWhile_all_not {α : Type} (f : α → Bool) (xs : List α) (y : α) (ys : List α)
    (h1 : ∀ x ∈ xs, f x = true) (h2 : f y = false) :
    (xs ++ y :: ys).takeWhile f = xs ∧ (xs ++ y :: ys).dropWhile f = y :: ys := by
  induction xs with
  | nil => simp [List.takeWhile_cons, List.dropWhile_cons, h2]
  | cons x xs ih =>
    have hx : f x = true := h1 x (by simp)
    have ih2 := ih (fun a ha => h1 a (by simp [ha]))
    simp [List.takeWhile_cons, List.dropWhile_cons, hx, ih2.1, ih2.2]

theorem stripCI_self (ps : List Char) (r : List Char)
    (h : ∀ c ∈ ps, lcChar c = c) : stripCI ps (ps ++ r) = some r := by
  induction ps with
  | nil => simp [stripCI]
  | cons p ps ih =>
    have hp : lcChar p = p := h p (by simp)
    simp [stripCI, hp, ih (fun c hc => h c (by simp [hc]))]

theorem stripCI_some_imp (ps : List Char) :
    ∀ l r, stripCI ps l = some r → (l.take ps.length).map lcChar = ps := by
  induction ps with
  | nil => intro l r _; simp
  | cons p ps ih =>
    intro l r h
    match l with
    | [] => simp [stripCI] at h
    | c :: cs =>
      simp only [stripCI] at h
      by_cases hc : lcChar c = p
      · rw [if_pos hc] at h
        simpa [hc] using ih cs r h
      · rw [if_neg hc] at h
        exact absurd h (by simp)

/-- The characterization of a string accepted by the `mime` group. -/
def mimeOKB (m : List Char) : Bool :=
  let l1 := m.takeWhile isAsciiAlpha
  match m.dropWhile isAsciiAlpha with
  | c :: r2 => c = '/' && !l1.isEmpty && !r2.isEmpty && r2.all isMimeTail
  | [] => false

/-- The characterization of a string accepted by the `charset` group. -/
def charsetOKB (c : List Char) : Bool := !c.isEmpty && c.all isCharsetChar

theorem mimeOKB_split (m : List Char) (h : mimeOKB m = true) :
    ∃ l1 l2, m = l1 ++ '/' :: l2 ∧ l1 ≠ [] ∧ l2 ≠ [] ∧
      (∀ x ∈ l1, isAsciiAlpha x = true) ∧ (∀ x ∈ l2, isMimeTail x = true) := by
  unfold mimeOKB at h
  rcases hd : m.dropWhile isAsciiAlpha with _ | ⟨c, r2⟩ <;> rw [hd] at h
  · simp at h
  · simp only [Bool.and_eq_true, Bool.not_eq_true', decide_eq_true_eq] at h
    obtain ⟨⟨⟨hc, h1⟩, h2⟩, h3⟩ := h
    subst hc
    refine ⟨m.takeWhile isAsciiAlpha, r2, ?_, ?_, ?_, ?_, ?_⟩
    · rw [← hd, List.takeWhile_append_dropWhile]
    · intro hnil; rw [hnil] at h1; simp at h1
    · intro hnil; rw [hnil] at h2; simp at h2
    · intro x hx; exact List.mem_takeWhile_imp hx
    · intro x hx; exact List.all_eq_true.mp h3 x hx

/-- Parts of a grammar-conformant data-URI string. -/
def mimePart : Option (List Char) → List Char
  | none => []
  | some m => m

def charsetPart : Option (List Char) → List Char
  | none => []
  | some c => ";charset=".toList ++ c

def b64Part : Bool → List Char
  | false => []
  | true => ";base64".toList

/-- String `s` matches the data-URI grammar
`data:[<mime>][;charset=<cs>][;base64],<data>` with the given groups. -/
def IsGrammar (l : List Char) (mo co : Option (List Char)) (b : Bool) (d : List Char) : Prop :=
  l = "data:".toList ++ mimePart mo ++ charsetPart co ++ b64Part b ++ ',' :: d ∧
  (∀ m, mo = some m → mimeOKB m = true) ∧
  (∀ c, co = some c → charsetOKB c = true) ∧
  d.all (· ≠ '\n') = true

instance (l : List Char) (mo co : Option (List Char)) (b : Bool) (d : List Char) :
    Decidable (IsGrammar l mo co b d) := by
  unfold IsGrammar; infer_instance

theorem tryMime_no (y : Char) (ys : List Char) (h : isAsciiAlpha y = false) :
    tryMime (y :: ys) = (none, y :: ys) := by
  simp [tryMime, List.takeWhile_cons, List.dropWhile_cons, h]

theorem tryMime_yes (l1 l2 : List Char) (y : Char) (ys : List Char)
    (h1 : ∀ x ∈ l1, isAsciiAlpha x = true) (h1n : l1 ≠ [])
    (h2 : ∀ x ∈ l2, isMimeTail x = true) (h2n : l2 ≠ [])
    (_hy1 : isAsciiAlpha y = false) (hy2 : isMimeTail y = false) :
    tryMime (l1 ++ '/' :: (l2 ++ y :: ys)) = (some (l1 ++ '/' :: l2), y :: ys) := by
  have e1 := takeWhile_all_not isAsciiAlpha l1 '/' (l2 ++ y :: ys) h1 (by decide)
  have e2 := takeWhile_all_not isMimeTail l2 y ys h2 hy2
  simp only [tryMime, e1.1, e1.2, e2.1, e2.2]
  simp [h1n, h2n]

theorem tryCharset_yes (c : List Char) (y : Char) (ys : List Char)
    (hc : ∀ x ∈ c, isCharsetChar x = true) (hcn : c ≠ [])
    (hy : isCharsetChar y = false) :
    tryCharset (";charset=".toList ++ (c ++ y :: ys)) = (some c, y :: ys) := by
  have e0 := stripCI_self ";charset=".toList (c ++ y :: ys) (by decide)
  have e1 := takeWhile_all_not isCharsetChar c y ys hc hy
  simp only [tryCharset, e0, e1.1, e1.2]
  simp [hcn]

theorem tryCharset_no_b64 (r : List Char) :
    tryCharset (";base64".toList ++ r) = (none, ";base64".toList ++ r) := rfl

theorem tryCharset_no_comma (r : List Char) :
    tryCharset (',' :: r) = (none, ',' :: r) := rfl

theorem tryB64_yes (r : List Char) : tryB64 (";base64".toList ++ r) = (true, r) := rfl

theorem tryB64_no (r : List Char) : tryB64 (',' :: r) = (false, ',' :: r) := rfl

theorem matchDotStar_noNL (d : List Char) (hd : d.all (· ≠ '\n') = true) :
    matchDotStar d = some d := by
  unfold matchDotStar
  rw [hd]
  simp

theorem tryMime_part (mo : Option (List Char))
    (hmo : ∀ m, mo = some m → mimeOKB m = true) (rest : List Char)
    (hh : ∃ y ys, rest = y :: ys ∧ isAsciiAlpha y = false ∧ isMimeTail y = false) :
    tryMime (mimePart mo ++ rest) = (mo, rest) := by
  obtain ⟨y, ys, hrest, hy1, hy2⟩ := hh
  subst hrest
  cases mo with
  | none => exact tryMime_no y ys hy1
  | some m =>
    obtain ⟨l1, l2, hm, h1n, h2n, h1, h2⟩ := mimeOKB_split m (hmo m rfl)
    subst hm
    have := tryMime_yes l1 l2 y ys h1 h1n h2 h2n hy1 hy2
    simpa [mimePart, List.append_assoc] using this

theorem tryCharset_part (co : Option (List Char))
    (hco : ∀ c, co = some c → charsetOKB c = true) (b : Bool) (d : List Char) :
    tryCharset (charsetPart co ++ (b64Part b ++ ',' :: d)) =
      (co, b64Part b ++ ',' :: d) := by
  cases co with
  | none =>
    cases b with
    | false => simpa [charsetPart, b64Part] using tryCharset_no_comma d
    | true => simpa [charsetPart, b64Part] using tryCharset_no_b64 (',' :: d)
  | some c =>
    have hc := hco c rfl
    simp only [charsetOKB, Bool.and_eq_true, Bool.not_eq_true'] at hc
    have hcn : c ≠ [] := by
      intro hnil; rw [hnil] at hc; simp at hc
    have hcc : ∀ x ∈ c, isCharsetChar x = true := List.all_eq_true.mp hc.2
    cases b with
    | false =>
      have := tryCharset_yes c ',' d hcc hcn (by decide)
      simpa [charsetPart, b64Part, List.append_assoc] using this
    | true =>
      have := tryCharset_yes c ';' ('b' :: 'a' :: 's' :: 'e' :: '6' :: '4' :: ',' :: d)
        hcc hcn (by decide)
      simpa [charsetPart, b64Part, List.append_assoc] using this

theorem tryB64_part (b : Bool) (d : List Char) :
    tryB64 (b64Part b ++ ',' :: d) = (b, ',' :: d) := by
  cases b with
  | false => simpa [b64Part] using tryB64_no d
  | true => exact tryB64_yes (',' :: d)

/-- Completeness: the regex matcher accepts every string of the grammar,
with exactly the expected groups. -/
theorem matchDataURI_complete (l : List Char) (mo co : Option (List Char))
    (b : Bool) (d : List Char) (hg : IsGrammar l mo co b d) :
    matchDataURI l = some ⟨mo, co, b, d⟩ := by
  obtain ⟨hl, hmo, hco, hd⟩ := hg
  subst hl
  have hstrip : stripCI "data:".toList
      ("data:".toList ++ (mimePart mo ++ (charsetPart co ++ (b64Part b ++ ',' :: d)))) =
      some (mimePart mo ++ (charsetPart co ++ (b64Part b ++ ',' :: d))) :=
    stripCI_self _ _ (by decide)
  -- head character after the (possibly empty) mime part
  have hh : ∃ y ys, charsetPart co ++ (b64Part b ++ ',' :: d) = y :: ys ∧
      isAsciiAlpha y = false ∧ isMimeTail y = false := by
    rcases co with _ | c
    · rcases b with _ | _
      · exact ⟨',', d, by simp [charsetPart, b64Part], by decide, by decide⟩
      · exact ⟨';', 'b' :: 'a' :: 's' :: 'e' :: '6' :: '4' :: ',' :: d,
          by simp [charsetPart, b64Part], by decide, by decide⟩
    · exact ⟨';', "charset=".toList ++ (c ++ (b64Part b ++ ',' :: d)),
        by simp [charsetPart, List.append_assoc], by decide, by decide⟩
  have hA := tryMime_part mo hmo (charsetPart co ++ (b64Part b ++ ',' :: d)) hh
  have hB := tryCharset_part co hco b d
  have hC := tryB64_part b d
  simp only [matchDataURI, List.append_assoc, hstrip, hA, hB, hC,
    matchDotStar_noNL d hd]
  rfl

/-! ## Facts about encodings used by the codec claims -/

theorem b64char_ne_nl (n : Nat) : ¬ b64char n = '\n' := by
  by_cases h : n < 64
  · exact (by decide : ∀ k, k < 64 → ¬ b64char k = '\n') n h
  · unfold b64char
    rw [List.getD_eq_default]
    · decide
    · rw [show b64chars.length = 64 from rfl]; omega

theorem b64encode_mem_ne_nl (p : List Nat) : ∀ x ∈ b64encode p, x ≠ '\n' := by
  induction p using b64encode.induct with
  | case1 => simp [b64encode]
  | case2 a => simp [b64encode, b64char_ne_nl]
  | case3 a b => simp [b64encode, b64char_ne_nl]
  | case4 a b c rest ih =>
    intro x hx
    simp only [b64encode, List.mem_cons] at hx
    rcases hx with h | h | h | h | h
    · rw [h]; exact b64char_ne_nl _
    · rw [h]; exact b64char_ne_nl _
    · rw [h]; exact b64char_ne_nl _
    · rw [h]; exact b64char_ne_nl _
    · exact ih x h

theorem b64encode_noNL (p : List Nat) : (b64encode p).all (· ≠ '\n') = true := by
  rw [List.all_eq_true]
  intro x hx
  simpa using b64encode_mem_ne_nl p x hx

theorem charOfNat_toNat : ∀ b, b < 128 → (Char.ofNat b).toNat = b := by decide

/-- One decoding step on an ASCII byte. -/
theorem utf8_step_lt (b : Nat) (hb : b < 0x80) (rest : List Nat) :
    utf8DecodeL (b :: rest) = (utf8DecodeL rest).map (Char.ofNat b :: ·) := by
  cases rest with
  | nil =>
    show (if b < 0x80 then (utf8DecodeL []).map (Char.ofNat b :: ·)
      else if 0xC2 ≤ b && b ≤ 0xDF then none
      else if 0xE0 ≤ b && b ≤ 0xEF then none
      else if 0xF0 ≤ b && b ≤ 0xF4 then none
      else none) = _
    rw [if_pos hb]
  | cons b2 r2 =>
    cases r2 with
    | nil =>
      show (if b < 0x80 then (utf8DecodeL [b2]).map (Char.ofNat b :: ·)
        else if 0xC2 ≤ b && b ≤ 0xDF then
          (if isCont b2 then (utf8DecodeL []).map (utf8Char2 b b2 :: ·) else none)
        else if 0xE0 ≤ b && b ≤ 0xEF then none
        else if 0xF0 ≤ b && b ≤ 0xF4 then none
        else none) = _
      rw [if_pos hb]
    | cons b3 r3 =>
      cases r3 with
      | nil =>
        show (if b < 0x80 then (utf8DecodeL [b2, b3]).map (Char.ofNat b :: ·)
          else if 0xC2 ≤ b && b ≤ 0xDF then
            (if isCont b2 then (utf8DecodeL [b3]).map (utf8Char2 b b2 :: ·) else none)
          else if 0xE0 ≤ b && b ≤ 0xEF then
            (if e0Ok b b2 && isCont b3 then
              (utf8DecodeL []).map (utf8Char3 b b2 b3 :: ·)
            else none)
          else if 0xF0 ≤ b && b ≤ 0xF4 then none
          else none) = _
        rw [if_pos hb]
      | cons b4 r4 =>
        show (if b < 0x80 then (utf8DecodeL (b2 :: b3 :: b4 :: r4)).map (Char.ofNat b :: ·)
          else if 0xC2 ≤ b && b ≤ 0xDF then
            (if isCont b2 then
              (utf8DecodeL (b3 :: b4 :: r4)).map (utf8Char2 b b2 :: ·)
            else none)
          else if 0xE0 ≤ b && b ≤ 0xEF then
            (if e0Ok b b2 && isCont b3 then
              (utf8DecodeL (b4 :: r4)).map (utf8Char3 b b2 b3 :: ·)
            else none)
          else if 0xF0 ≤ b && b ≤ 0xF4 then
            (if f0Ok b b2 && isCont b3 && isCont b4 then
              (utf8DecodeL r4).map (utf8Char4 b b2 b3 b4 :: ·)
            else none)
          else none) = _
        rw [if_pos hb]

theorem utf8DecodeL_ascii (p : List Nat) (hp : ∀ b ∈ p, b < 128) :
    utf8DecodeL p = some (p.map Char.ofNat) := by
  induction p with
  | nil => rfl
  | cons b rest ih =>
    have hb : b < 128 := hp b (by simp)
    have hrec := ih (fun x hx => hp x (by simp [hx]))
    rw [utf8_step_lt b hb rest, hrec]
    rfl

theorem utf8EncodeChar_ascii (b : Nat) (hb : b < 128) :
    utf8EncodeChar (Char.ofNat b) = [b] := by
  unfold utf8EncodeChar
  rw [charOfNat_toNat b hb]
  simp [hb]

theorem utf8EncodeL_map_ofNat (p : List Nat) (hp : ∀ b ∈ p, b < 128) :
    utf8EncodeL (p.map Char.ofNat) = p := by
  induction p with
  | nil => rfl
  | cons b rest ih =>
    have hb : b < 128 := hp b (by simp)
    simp [utf8EncodeL, utf8EncodeChar_ascii b hb, ih (fun x hx => hp x (by simp [hx]))]

theorem safe_lt128 (b : Nat) (h : isQuoteSafe b = true) : b < 128 := by
  simp only [isQuoteSafe, Bool.or_eq_true, Bool.and_eq_true, decide_eq_true_eq] at h
  omega

theorem safe_ne_ten (b : Nat) (h : isQuoteSafe b = true) : b ≠ 10 := by
  simp only [isQuoteSafe, Bool.or_eq_true, Bool.and_eq_true, decide_eq_true_eq] at h
  omega

theorem quoteBytes_safe (p : List Nat) (hp : ∀ b ∈ p, isQuoteSafe b = true) :
    quoteBytes p = p.map Char.ofNat := by
  induction p with
  | nil => rfl
  | cons b rest ih =>
    have hb : isQuoteSafe b = true := hp b (by simp)
    simp [quoteBytes, quoteByte, hb, ih (fun x hx => hp x (by simp [hx]))]

theorem charOfNat_ne_nl (b : Nat) (hb : b < 128) (hne : b ≠ 10) :
    Char.ofNat b ≠ '\n' := by
  intro heq
  have := congrArg Char.toNat heq
  rw [charOfNat_toNat b hb] at this
  exact hne this

/-! ## Claim C2 -/

/-- C2: base64 round-trip law.  For every byte sequence `p` and every
mime type and charset accepted by the data-URI grammar,
`parse_data_uri (create_data_uri p m c True)` succeeds and its payload
equals `p` (and the parsed mime type is `m`). -/
theorem C2_base64_roundtrip (p : List Nat) (m c : String)
    (hp : ∀ x ∈ p, x < 256) (hm : mimeOKB m.data = true)
    (hc : charsetOKB c.data = true) :
    ∃ uri, create_data_uri p m c true = some uri ∧
      ∃ r, parse_data_uri uri = some r ∧ r.data = p ∧ r.is_base64 = true ∧
        r.mime_type = m := by
  have hgram : IsGrammar
      ("data:" ++ m ++ ";charset=" ++ c ++ ";base64," ++
        String.mk (b64encode p)).data
      (some m.data) (some c.data) true (b64encode p) := by
    refine ⟨?_, ?_, ?_, b64encode_noNL p⟩
    · simp only [String.data_append, mimePart, charsetPart, b64Part,
        List.append_assoc]
      rfl
    · intro mm hmm; injection hmm with h; rw [← h]; exact hm
    · intro cc hcc; injection hcc with h; rw [← h]; exact hc
  have hmatch := matchDataURI_complete _ _ _ _ _ hgram
  refine ⟨_, rfl, ?_⟩
  simp only [parse_data_uri, hmatch, if_true]
  rw [b64decode_b64encode p hp]
  exact ⟨_, rfl, rfl, rfl, rfl⟩

/-- Witness for C2 at a concrete payload, mime type and charset. -/
theorem C2_base64_roundtrip_witness :
    ((∀ x ∈ [0, 255, 10], x < 256) ∧ mimeOKB "image/png".data = true ∧
      charsetOKB "utf-8".data = true) ∧
    ∃ uri, create_data_uri [0, 255, 10] "image/png" "utf-8" true = some uri ∧
      ∃ r, parse_data_uri uri = some r ∧ r.data = [0, 255, 10] ∧
        r.is_base64 = true ∧ r.mime_type = "image/png" :=
  ⟨⟨by decide, by decide, by decide⟩,
    C2_base64_roundtrip [0, 255, 10] "image/png" "utf-8"
      (by decide) (by decide) (by decide)⟩

/-! ## Claim C5 -/

theorem is_data_uri_false_of_head (s : String)
    (h : (s.data.take 5).map lcChar ≠ "data:".toList) : is_data_uri s = false := by
  unfold is_data_uri matchDataURI
  cases hs : stripCI "data:".toList s.data with
  | some r =>
    exfalso
    have := stripCI_some_imp "data:".toList s.data r hs
    rw [show ("data:".toList.length) = 5 from rfl] at this
    exact h this
  | none => rfl

/-- C5 (amended): every string matching the data-URI grammar is accepted
by `is_data_uri`; `parse_data_uri` succeeds on every grammar match without
the `;base64` marker, and on every grammar match whose marked data segment
is a base64 encoding of a byte sequence — but not on every grammar match,
since `;base64` with non-base64 data is accepted by the grammar and makes
`parse_data_uri` raise; a string whose first five characters are not
`data:` up to ASCII case is rejected (the raw prefix check of the claim is
also false, since the regex is case-insensitive). -/
theorem C5_valid_uris :
    (∀ (l : List Char) (mo co : Option (List Char)) (b : Bool) (d : List Char),
      IsGrammar l mo co b d → is_data_uri (String.mk l) = true) ∧
    (∀ (l : List Char) (mo co : Option (List Char)) (d : List Char),
      IsGrammar l mo co false d → (parse_data_uri (String.mk l)).isSome = true) ∧
    (∀ (l : List Char) (mo co : Option (List Char)) (d : List Char) (p : List Nat),
      IsGrammar l mo co true d → d = b64encode p → (∀ x ∈ p, x < 256) →
      (parse_data_uri (String.mk l)).isSome = true) ∧
    (∀ s : String, (s.data.take 5).map lcChar ≠ "data:".toList →
      is_data_uri s = false) := by
  refine ⟨?_, ?_, ?_, is_data_uri_false_of_head⟩
  · intro l mo co b d hg
    have hm := matchDataURI_complete l mo co b d hg
    have hdm : (String.mk l).data = l := rfl
    simp [is_data_uri, hdm, hm]
  · intro l mo co d hg
    have hm := matchDataURI_complete l mo co false d hg
    have hdm : (String.mk l).data = l := rfl
    simp [parse_data_uri, hdm, hm]
  · intro l mo co d p hg hd hp
    subst hd
    have hm := matchDataURI_complete l mo co true (b64encode p) hg
    have hdm : (String.mk l).data = l := rfl
    simp [parse_data_uri, hdm, hm, b64decode_b64encode p hp]

/-- Witness for C5 on concrete grammar matches. -/
theorem C5_valid_uris_witness :
    (IsGrammar "data:text/plain;charset=utf-8,hi".data
        (some "text/plain".data) (some "utf-8".data) false "hi".data ∧
      (parse_data_uri (String.mk "data:text/plain;charset=utf-8,hi".data)).isSome = true) ∧
    ((¬ ("notadata".data.take 5).map lcChar = "data:".toList) ∧
      is_data_uri "notadata" = false) :=
  ⟨⟨by decide, C5_valid_uris.2.1 "data:text/plain;charset=utf-8,hi".data
      (some "text/plain".data) (some "utf-8".data) "hi".data (by decide)⟩,
    ⟨by decide, C5_valid_uris.2.2.2 "notadata" (by decide)⟩⟩

/-- C5 counterexample: `"data:;base64,x"` matches the grammar, so
`is_data_uri` accepts it, yet `parse_data_uri` raises `ValueError`
(invalid base64); and `"DATA:,"` lacks the literal `data:` prefix yet
`is_data_uri` accepts it. -/
theorem C5_cex :
    (IsGrammar "data:;base64,x".data none none true ['x'] ∧
      is_data_uri "data:;base64,x" = true ∧
      parse_data_uri "data:;base64,x" = none) ∧
    ("DATA:,".data.take 5 ≠ "data:".data ∧ is_data_uri "DATA:," = true) :=
  ⟨⟨by decide, by decide, by decide⟩, by decide, by decide⟩

/-! ## Claim C6 -/

/-- C6 (amended): in the non-base64 case `create_data_uri` percent-quotes
the decoded text while `parse_data_uri` takes the literal data segment
without percent-decoding, so `parse(build(p, m, utf-8, False))` succeeds
and returns exactly `p` precisely when quoting leaves the text unchanged:
payloads of quote-safe ASCII bytes round-trip. -/
theorem C6_text_roundtrip (p : List Nat) (m : String)
    (hm : mimeOKB m.data = true) (hp : ∀ x ∈ p, isQuoteSafe x = true) :
    ∃ uri, create_data_uri p m "utf-8" false = some uri ∧
      ∃ r, parse_data_uri uri = some r ∧ r.data = p ∧ r.is_base64 = false := by
  have hp128 : ∀ x ∈ p, x < 128 := fun x hx => safe_lt128 x (hp x hx)
  have hdec : utf8DecodeL p = some (p.map Char.ofNat) := utf8DecodeL_ascii p hp128
  have hquote : pyQuote (p.map Char.ofNat) = p.map Char.ofNat := by
    unfold pyQuote
    rw [utf8EncodeL_map_ofNat p hp128, quoteBytes_safe p hp]
  have hcreate : create_data_uri p m "utf-8" false =
      some ("data:" ++ m ++ ";charset=" ++ "utf-8" ++ "," ++
        String.mk (p.map Char.ofNat)) := by
    simp [create_data_uri, pyDecode, hdec, hquote]
  have hnl : (p.map Char.ofNat).all (· ≠ '\n') = true := by
    rw [List.all_eq_true]
    intro x hx
    simp only [List.mem_map] at hx
    obtain ⟨b, hb, hbx⟩ := hx
    subst hbx
    simpa using charOfNat_ne_nl b (hp128 b hb) (safe_ne_ten b (hp b hb))
  have hgram : IsGrammar
      ("data:" ++ m ++ ";charset=" ++ "utf-8" ++ "," ++
        String.mk (p.map Char.ofNat)).data
      (some m.data) (some "utf-8".data) false (p.map Char.ofNat) := by
    refine ⟨?_, ?_, ?_, hnl⟩
    · simp only [String.data_append, mimePart, charsetPart, b64Part,
        List.append_assoc]
      rfl
    · intro mm hmm; injection hmm with h; rw [← h]; exact hm
    · intro cc hcc; injection hcc with h; rw [← h]; decide
  have hmatch := matchDataURI_complete _ _ _ _ _ hgram
  refine ⟨_, hcreate, ?_⟩
  simp only [parse_data_uri, hmatch]
  exact ⟨_, rfl, utf8EncodeL_map_ofNat p hp128, rfl⟩

/-- Witness for C6 on the payload `"hi"`. -/
theorem C6_text_roundtrip_witness :
    (mimeOKB "text/plain".data = true ∧
      (∀ x ∈ [104, 105], isQuoteSafe x = true)) ∧
    ∃ uri, create_data_uri [104, 105] "text/plain" "utf-8" false = some uri ∧
      ∃ r, parse_data_uri uri = some r ∧ r.data = [104, 105] ∧
        r.is_base64 = false :=
  ⟨⟨by decide, by decide⟩,
    C6_text_roundtrip [104, 105] "text/plain" (by decide) (by decide)⟩

/-- C6 counterexample: the payload `[32]` (one space byte) is decodable
text under utf-8, but build percent-quotes it to `%20` and parse returns
the three bytes of `%20`, not the original payload. -/
theorem C6_cex :
    create_data_uri [32] "text/plain" "utf-8" false =
      some "data:text/plain;charset=utf-8,%20" ∧
    (parse_data_uri "data:text/plain;charset=utf-8,%20").map DataURIValue.data =
      some [37, 50, 48] ∧ [37, 50, 48] ≠ [32] :=
  ⟨by decide, by decide, by decide⟩

/-! ## The document tree model of `FileEditor`

An element of the parsed tree: tag, text, attributes, children.  lxml
exposes namespaced attributes under expanded keys `{uri}local`; namespace
declarations live in `nsmap`, not in `attrib`. -/

inductive Element : Type where
  | mk (tag : String) (text : Option String) (attrib : List (String × String))
       (children : List Element)

instance : Inhabited Element := ⟨.mk "" none [] []⟩

def Element.tag : Element → String
  | .mk t _ _ _ => t

def Element.text : Element → Option String
  | .mk _ x _ _ => x

def Element.attrib : Element → List (String × String)
  | .mk _ _ a _ => a

def Element.children : Element → List Element
  | .mk _ _ _ cs => cs

/-- Modelled from the spec: a path expression selects elements by their
local properties (tag, text, attributes) — the query language itself is
delegated to the external lxml backend; §4.4 fixes the contract that
evaluation returns matching nodes in document order (depth-first,
pre-order), which is what `matchAddrs` below produces. -/
def NodeSel : Type := String → Option String → List (String × String) → Bool

def selMatch (q : NodeSel) (e : Element) : Bool := q e.tag e.text e.attrib

mutual
/-- Addresses (child-index paths) of the selector's matches, in document
order. -/
def matchAddrs (q : NodeSel) : Element → List (List Nat)
  | .mk t x a cs => (if q t x a then [([] : List Nat)] else []) ++ matchAddrsL q cs 0
def matchAddrsL (q : NodeSel) : List Element → Nat → List (List Nat)
  | [], _ => []
  | e :: es, i => (matchAddrs q e).map (i :: ·) ++ matchAddrsL q es (i + 1)
end

mutual
/-- Number of elements matching the selector. -/
def cntM (q : NodeSel) : Element → Nat
  | .mk t x a cs => (if q t x a then 1 else 0) + cntML q cs
def cntML (q : NodeSel) : List Element → Nat
  | [] => 0
  | c :: cs => cntM q c + cntML q cs
end

/-- Subtree at a child-index address. -/
def subtreeAt : List Nat → Element → Option Element
  | [], e => some e
  | i :: rest, .mk _ _ _ cs =>
    match cs[i]? with
    | some c => subtreeAt rest c
    | none => none

/-- Text of the node at an address (`none` when the address is invalid). -/
def textAt (a : List Nat) (e : Element) : Option (Option String) :=
  (subtreeAt a e).map Element.text

def listModify (g : Element → Element) : Nat → List Element → List Element
  | _, [] => []
  | 0, c :: cs => g c :: cs
  | i + 1, c :: cs => c :: listModify g i cs

/-- Apply `f` to the node at an address. -/
def modifyAt (f : Element → Element) : List Nat → Element → Element
  | [], e => f e
  | i :: rest, .mk t x a cs => .mk t x a (listModify (fun c => modifyAt f rest c) i cs)

/-- Remove the node at a (non-root) address from its parent. -/
def removeAt : List Nat → Element → Element
  | [], e => e
  | [i], .mk t x a cs => .mk t x a (cs.eraseIdx i)
  | i :: j :: rest, .mk t x a cs =>
      .mk t x a (listModify (fun c => removeAt (j :: rest) c) i cs)

/-! ## Namespace registry (`FileEditor.__init__` seeds, `_parse_content`
absorbs the document's `nsmap`) -/

def lookupA : List (String × String) → String → Option String
  | [], _ => none
  | (k, v) :: rest, key => if k = key then some v else lookupA rest key

/-- Python dict assignment `d[k] = v` on an association list. -/
def nsUpdate (p uri : String) : List (String × String) → List (String × String)
  | [] => [(p, uri)]
  | (k, v) :: rest => if k = p then (p, uri) :: rest else (k, v) :: nsUpdate p uri rest

/-- Python `for prefix, uri in nsmap.items(): if prefix is not None: ns[prefix] = uri`
(the `None` key is the default namespace and is skipped). -/
def absorb (ns : List (String × String)) : List (Option String × String) →
    List (String × String)
  | [] => ns
  | (none, _) :: rest => absorb ns rest
  | (some p, u) :: rest => absorb (nsUpdate p u ns) rest

/-- The namespaces seeded by `FileEditor.__init__`. -/
def defaultNS : List (String × String) :=
  [("svg", "http://www.w3.org/2000/svg"),
   ("xlink", "http://www.w3.org/1999/xlink"),
   ("html", "http://www.w3.org/1999/xhtml"),
   ("xhtml", "http://www.w3.org/1999/xhtml")]

def hasColon (name : String) : Bool := name.data.any (· = ':')

def pfxOf (name : String) : String := String.mk (name.data.takeWhile (· ≠ ':'))

def localOf (name : String) : String :=
  String.mk ((name.data.dropWhile (· ≠ ':')).drop 1)

/-- Embeds `FileEditor._get_attribute` of `src/xsl/editor.py`: direct lookup,
then the `xlink:` special case, then expansion through the registry. -/
def get_attribute (ns : List (String × String)) (e : Element) (name : String) :
    Option String :=
  match lookupA e.attrib name with
  | some v => some v
  | none =>
    if name.data.take 6 = "xlink:".data then
      lookupA e.attrib ("\x7b" ++ ((lookupA ns "xlink").getD "") ++ "\x7d" ++
        String.mk (name.data.drop 6))
    else if hasColon name then
      match lookupA ns (pfxOf name) with
      | some uri => lookupA e.attrib ("\x7b" ++ uri ++ "\x7d" ++ localOf name)
      | none => none
    else none

/-! ## Mutation operations -/

/-- Python dict-style attribute set (lxml `elem.set`): replace the value
of an existing key, else append. -/
def pySetAttr (k v : String) : List (String × String) → List (String × String)
  | [] => [(k, v)]
  | (k0, v0) :: rest => if k0 = k then (k, v) :: rest else (k0, v0) :: pySetAttr k v rest

mutual
def setTextMatched (q : NodeSel) (v : String) : Element → Element
  | .mk t x a cs => .mk t (if q t x a then some v else x) a (setTextMatchedL q v cs)
def setTextMatchedL (q : NodeSel) (v : String) : List Element → List Element
  | [] => []
  | c :: cs => setTextMatched q v c :: setTextMatchedL q v cs
end

mutual
def setAttrMatched (q : NodeSel) (k v : String) : Element → Element
  | .mk t x a cs =>
      .mk t x (if q t x a then pySetAttr k v a else a) (setAttrMatchedL q k v cs)
def setAttrMatchedL (q : NodeSel) (k v : String) : List Element → List Element
  | [] => []
  | c :: cs => setAttrMatched q k v c :: setAttrMatchedL q k v cs
end

/-- Embeds `FileEditor.set_element_text` of `src/xsl/editor.py`: queries, returns
`False` on no match, otherwise assigns the text of every matched element
and returns `True`. -/
def set_element_text (q : NodeSel) (v : String) (doc : Element) : Element × Bool :=
  match matchAddrs q doc with
  | [] => (doc, false)
  | _ :: _ => (setTextMatched q v doc, true)

def setTextOnly (v : String) : Element → Element
  | .mk t _ a cs => .mk t (some v) a cs

/-- Embeds `FileEditor.set_element_text` of `src/filex/cli.py`: queries, assigns
the text of `elements[0]` only, returns `True` on any match. -/
def set_element_text_cli (q : NodeSel) (v : String) (doc : Element) : Element × Bool :=
  match matchAddrs q doc with
  | [] => (doc, false)
  | a :: _ => (modifyAt (setTextOnly v) a doc, true)

/-- Resolution of a (possibly prefixed) attribute name in
`FileEditor.set_element_attribute` of `src/xsl/editor.py`: prefixed names
are expanded through the registry, an unknown prefix resolves to nothing. -/
def attrKeyResolved (ns : List (String × String)) (name : String) : Option String :=
  if hasColon name then
    match lookupA ns (pfxOf name) with
    | some uri => some ("\x7b" ++ uri ++ "\x7d" ++ localOf name)
    | none => none
  else some name

/-- Embeds `FileEditor.set_element_attribute` of `src/xsl/editor.py`. -/
def set_element_attribute (ns : List (String × String)) (q : NodeSel)
    (name value : String) (doc : Element) : Element × Bool :=
  match matchAddrs q doc with
  | [] => (doc, false)
  | _ :: _ =>
    match attrKeyResolved ns name with
    | some k => (setAttrMatched q k value doc, true)
    | none => (doc, false)

/-- Embeds `FileEditor.remove_element` of `src/filex/cli.py`: takes the first
match, removes it from its parent; returns `False` when there is no match
or the first match has no parent (the root). -/
def remove_element (q : NodeSel) (doc : Element) : Element × Bool :=
  match matchAddrs q doc with
  | [] => (doc, false)
  | a :: _ => if a = [] then (doc, false) else (removeAt a doc, true)

/-! ## Loader (`FileEditor._parse_content` of `src/xsl/editor.py`) -/

/-- A successful full-parser result: root plus the document's namespace
declarations. -/
structure LxmlDoc where
  root : Element
  nsmap : List (Option String × String)

/-- Embeds `FileEditor._parse_content` with `LXML_AVAILABLE`: try the full
parser, absorb its `nsmap` into the registry on success; on a syntax
error fall back to the standard-library parser; if that also fails, raise
`ValueError` carrying the fallback's diagnostic.  The two parser backends
are external libraries and are passed as parameters. -/
def parse_content (lxmlParse : String → Except String LxmlDoc)
    (etParse : String → Except String Element)
    (ns0 : List (String × String)) (content : String) :
    Except String (Element × List (String × String)) :=
  match lxmlParse content with
  | .ok r => .ok (r.root, absorb ns0 r.nsmap)
  | .error _ =>
    match etParse content with
    | .ok t => .ok (t, ns0)
    | .error e => .error ("Cannot parse file: " ++ e)

/-! ## Query evaluation and `extract_data_uri` -/

/-- A result of an XPath evaluation: an element (by address) or an
attribute value string. -/
inductive XNode where
  | el (a : List Nat)
  | attrVal (s : String)
  deriving DecidableEq

/-- Selector for `//tag`. -/
def tagSel (t : String) : NodeSel := fun tg _ _ => tg == t

/-- Resolution of a (possibly prefixed) attribute test against the
registered namespaces, as lxml does with its `namespaces` argument; an
unregistered prefix is an evaluation error. -/
def xpathAttrKey (ns : List (String × String)) (nm : String) : Option String :=
  if hasColon nm then
    match lookupA ns (pfxOf nm) with
    | some uri => some ("\x7b" ++ uri ++ "\x7d" ++ localOf nm)
    | none => none
  else some nm

/-- Modelled from the spec: the XPath evaluator itself is the external
lxml backend.  §4.4 specifies the contract used here: matches come in
document order, and an attribute-valued expression is the owning-element
query plus a read of the named attribute.  The model covers the
expression shapes `//tag` and `//tag/@name`; `none` is an evaluation
error (unsupported expression or unregistered prefix). -/
def xpathEval (ns : List (String × String)) (doc : Element) (expr : String) :
    Option (List XNode) :=
  match expr.data with
  | '/' :: '/' :: rest =>
    let tagPart := String.mk (rest.takeWhile (· ≠ '/'))
    match rest.dropWhile (· ≠ '/') with
    | [] => some ((matchAddrs (tagSel tagPart) doc).map XNode.el)
    | '/' :: '@' :: anm =>
      match xpathAttrKey ns (String.mk anm) with
      | some k =>
        some ((matchAddrs (tagSel tagPart) doc).filterMap
          (fun a => ((subtreeAt a doc).bind (fun e => lookupA e.attrib k)).map
            XNode.attrVal))
      | none => none
    | _ => none
  | _ => none

/-- The dictionary shapes returned by `FileEditor.extract_data_uri` of
`src/xsl/editor.py`. -/
inductive ExtractResult where
  | ok (d : DataURIValue) (xp : String)
  | errNoEl (msg : String)
  | errNoURI
  | errCaught
  deriving DecidableEq

def parseToResult (u : String) (xp : String) : ExtractResult :=
  match parse_data_uri u with
  | some r => .ok r xp
  | none => .errCaught

/-- The inner attribute probing loop (`for attr_name in [...]`). -/
def tryNames (ns : List (String × String)) (e : Element) (xp : String) :
    List String → Option ExtractResult
  | [] => none
  | nm :: rest =>
    match get_attribute ns e nm with
    | some u =>
      if u ≠ "" ∧ is_data_uri u = true then some (parseToResult u xp)
      else tryNames ns e xp rest
    | none => tryNames ns e xp rest

/-- The outer `for elem in elements` loop: attribute-valued query results
(plain strings, which have no `get`) are skipped; for an element, the
specific attribute is probed first, then the common ones. -/
def elemLoop (ns : List (String × String)) (doc : Element) (xp : String)
    (attr : Option String) : List XNode → ExtractResult
  | [] => .errNoURI
  | .attrVal _ :: rest => elemLoop ns doc xp attr rest
  | .el a :: rest =>
    let e := (subtreeAt a doc).getD default
    let firstProbe : Option ExtractResult :=
      match attr with
      | some nm =>
        match get_attribute ns e nm with
        | some u =>
          if u ≠ "" ∧ is_data_uri u = true then some (parseToResult u xp) else none
        | none => none
      | none => none
    match firstProbe with
    | some r => r
    | none =>
      match tryNames ns e xp ["xlink:href", "href", "data", "src"] with
      | some r => r
      | none => elemLoop ns doc xp attr rest

/-- Python `xpath.rsplit('/', 1)[0]`. -/
def rsplitHead (xp : String) : String :=
  if xp.data.any (· = '/') then
    String.mk (((xp.data.reverse.dropWhile (· ≠ '/')).drop 1).reverse)
  else xp

/-- Embeds `FileEditor.extract_data_uri` of `src/xsl/editor.py`: query, handle
`/@xlink:href` and `/@href` expressions by re-querying the owning
element, then probe attributes for a data URI and parse it; every raised
exception is caught and turned into an error dictionary. -/
def extract_data_uri (ns : List (String × String)) (doc : Element) (xp : String) :
    ExtractResult :=
  match xpathEval ns doc xp with
  | none => .errCaught
  | some els =>
    if els.isEmpty then .errNoEl "No elements found matching XPATH"
    else
      let split : Option (String × String) :=
        if ("/@xlink:href".data).isSuffixOf xp.data then
          some (rsplitHead xp, "xlink:href")
        else if ("/@href".data).isSuffixOf xp.data then
          some (rsplitHead xp, "href")
        else none
      match split with
      | some (exp2, attr) =>
        match xpathEval ns doc exp2 with
        | none => .errCaught
        | some els2 =>
          if els2.isEmpty then .errNoEl "No elements found matching XPath"
          else elemLoop ns doc xp (some attr) els2
      | none => elemLoop ns doc xp none els

/-! ## Lemmas about the tree model -/

/-- Every address produced by the query is valid and designates a
matching element. -/
theorem matchAddrs_valid (q : NodeSel) (e : Element) :
    ∀ a ∈ matchAddrs q e, ∃ s, subtreeAt a e = some s ∧ selMatch q s = true := by
  refine matchAddrs.induct q
    (fun e => ∀ a ∈ matchAddrs q e, ∃ s, subtreeAt a e = some s ∧ selMatch q s = true)
    (fun cs i => ∀ a ∈ matchAddrsL q cs i, ∃ j a2 c, a = j :: a2 ∧ i ≤ j ∧
      cs[j - i]? = some c ∧ ∃ s, subtreeAt a2 c = some s ∧ selMatch q s = true)
    ?_ ?_ ?_ e
  · intro t x ats cs hcs a ha
    simp only [matchAddrs, List.mem_append] at ha
    rcases ha with ha | ha
    · have ha0 : a = [] ∧ q t x ats = true := by
        by_cases hq : q t x ats
        · simp [hq] at ha; exact ⟨ha, hq⟩
        · simp [hq] at ha
      refine ⟨.mk t x ats cs, ?_, ?_⟩
      · rw [ha0.1]; rfl
      · simpa [selMatch, Element.tag, Element.text, Element.attrib] using ha0.2
    · obtain ⟨j, a2, c, haj, _, hc, s, hs, hm⟩ := hcs a ha
      refine ⟨s, ?_, hm⟩
      rw [haj]
      simp only [subtreeAt]
      rw [show j - 0 = j from rfl] at hc
      rw [hc]
      exact hs
  · intro i a ha
    simp [matchAddrsL] at ha
  · intro e es i he hes a ha
    simp only [matchAddrsL, List.mem_append, List.mem_map] at ha
    rcases ha with ⟨a2, ha2, rfl⟩ | ha
    · obtain ⟨s, hs, hm⟩ := he a2 ha2
      exact ⟨i, a2, e, rfl, Nat.le_refl i, by simp, s, hs, hm⟩
    · obtain ⟨j, a2, c, haj, hij, hc, s, hs, hm⟩ := hes a ha
      refine ⟨j, a2, c, haj, by omega, ?_, s, hs, hm⟩
      rw [show j - i = (j - (i + 1)) + 1 from by omega]
      simpa using hc

theorem setTextMatchedL_eq_map (q : NodeSel) (v : String) (cs : List Element) :
    setTextMatchedL q v cs = cs.map (setTextMatched q v) := by
  induction cs with
  | nil => rfl
  | cons c cs ih => simp [setTextMatchedL, ih]

theorem setAttrMatchedL_eq_map (q : NodeSel) (k v : String) (cs : List Element) :
    setAttrMatchedL q k v cs = cs.map (setAttrMatched q k v) := by
  induction cs with
  | nil => rfl
  | cons c cs ih => simp [setAttrMatchedL, ih]

/-- The map `setTextMatched` rewrites every node in place, so taking a subtree
commutes with it. -/
theorem subtreeAt_setTextMatched (q : NodeSel) (v : String) :
    ∀ (a : List Nat) (e : Element),
      subtreeAt a (setTextMatched q v e) = (subtreeAt a e).map (setTextMatched q v) := by
  intro a
  induction a with
  | nil => intro e; rfl
  | cons i rest ih =>
    intro e
    rcases e with ⟨t, x, ats, cs⟩
    simp only [setTextMatched, subtreeAt, setTextMatchedL_eq_map, List.getElem?_map]
    cases hc : cs[i]? with
    | none => rfl
    | some c => simpa using ih c

theorem selMatch_text_set (q : NodeSel) (v : String) (s : Element)
    (h : selMatch q s = true) : (setTextMatched q v s).text = some v := by
  rcases s with ⟨t, x, ats, cs⟩
  simp only [selMatch, Element.tag, Element.text, Element.attrib] at h
  simp [setTextMatched, Element.text, h]

theorem listModify_getElem? (g : Element → Element) :
    ∀ (cs : List Element) (i j : Nat),
      (listModify g i cs)[j]? = if j = i then (cs[j]?).map g else cs[j]? := by
  intro cs
  induction cs with
  | nil => intro i j; simp [listModify]
  | cons c cs ih =>
    intro i j
    cases i with
    | zero =>
      cases j with
      | zero => simp [listModify]
      | succ j => simp [listModify]
    | succ i =>
      cases j with
      | zero => simp [listModify]
      | succ j =>
        simp only [listModify, List.getElem?_cons_succ, ih i j]
        by_cases h : j = i <;> simp [h]

/-- Modifying at an address changes exactly the subtree there. -/
theorem subtreeAt_modifyAt_self (f : Element → Element) :
    ∀ (a : List Nat) (e : Element),
      subtreeAt a (modifyAt f a e) = (subtreeAt a e).map f := by
  intro a
  induction a with
  | nil => intro e; rfl
  | cons i rest ih =>
    intro e
    rcases e with ⟨t, x, ats, cs⟩
    simp only [modifyAt, subtreeAt, listModify_getElem?, if_pos rfl]
    cases hc : cs[i]? with
    | none => rfl
    | some c => simpa using ih c

theorem subtreeAt_cons (j : Nat) (b2 : List Nat) (t : String) (x : Option String)
    (ats : List (String × String)) (cs : List Element) :
    subtreeAt (j :: b2) (.mk t x ats cs) =
      (match cs[j]? with
       | some c => subtreeAt b2 c
       | none => none) := rfl

theorem textAt_cons (j : Nat) (b2 : List Nat) (t : String) (x : Option String)
    (ats : List (String × String)) (cs : List Element) :
    textAt (j :: b2) (.mk t x ats cs) =
      (match cs[j]? with
       | some c => textAt b2 c
       | none => none) := by
  unfold textAt
  rw [subtreeAt_cons]
  cases cs[j]? <;> rfl

/-- The CLI variant of `set_element_text` writes only the text slot at
one address: texts elsewhere are untouched. -/
theorem textAt_setTextOnly_other (v : String) :
    ∀ (a b : List Nat) (e : Element), b ≠ a →
      textAt b (modifyAt (setTextOnly v) a e) = textAt b e := by
  intro a
  induction a with
  | nil =>
    intro b e hb
    rcases e with ⟨t, x, ats, cs⟩
    cases b with
    | nil => exact absurd rfl hb
    | cons j b2 =>
      show textAt (j :: b2) (.mk t (some v) ats cs) = _
      rw [textAt_cons, textAt_cons]
  | cons i rest ih =>
    intro b e hb
    rcases e with ⟨t, x, ats, cs⟩
    cases b with
    | nil => rfl
    | cons j b2 =>
      simp only [modifyAt, textAt_cons, listModify_getElem?]
      by_cases hj : j = i
      · subst hj
        simp only [if_pos rfl]
        cases hc : cs[j]? with
        | none => rfl
        | some c =>
          have hb2 : b2 ≠ rest := by
            intro h; exact hb (by rw [h])
          simpa using ih b2 c hb2
      · simp [hj]

theorem cntM_le_cntML (q : NodeSel) :
    ∀ (cs : List Element) (i : Nat) (c : Element), cs[i]? = some c →
      cntM q c ≤ cntML q cs := by
  intro cs
  induction cs with
  | nil => intro i c h; simp at h
  | cons d cs ih =>
    intro i c h
    cases i with
    | zero =>
      simp only [List.getElem?_cons_zero, Option.some.injEq] at h
      subst h
      simp [cntML]
    | succ i =>
      simp only [List.getElem?_cons_succ] at h
      have := ih i c h
      simp only [cntML]
      omega

theorem cntML_eraseIdx (q : NodeSel) :
    ∀ (cs : List Element) (i : Nat) (c : Element), cs[i]? = some c →
      cntML q (cs.eraseIdx i) = cntML q cs - cntM q c := by
  intro cs
  induction cs with
  | nil => intro i c h; simp at h
  | cons d cs ih =>
    intro i c h
    cases i with
    | zero =>
      simp only [List.getElem?_cons_zero, Option.some.injEq] at h
      subst h
      simp [List.eraseIdx, cntML]
    | succ i =>
      simp only [List.getElem?_cons_succ] at h
      have hle := cntM_le_cntML q cs i c h
      simp only [List.eraseIdx, cntML, ih i c h]
      omega

theorem cntML_listModify (q : NodeSel) (g : Element → Element) :
    ∀ (cs : List Element) (i : Nat) (c : Element), cs[i]? = some c →
      cntML q (listModify g i cs) = cntML q cs - cntM q c + cntM q (g c) := by
  intro cs
  induction cs with
  | nil => intro i c h; simp at h
  | cons d cs ih =>
    intro i c h
    cases i with
    | zero =>
      simp only [List.getElem?_cons_zero, Option.some.injEq] at h
      subst h
      simp only [listModify, cntML]
      omega
    | succ i =>
      simp only [List.getElem?_cons_succ] at h
      have hle := cntM_le_cntML q cs i c h
      simp only [listModify, cntML, ih i c h]
      omega

theorem cnt_subtreeAt_le (q : NodeSel) :
    ∀ (a : List Nat) (e : Element) (s : Element), subtreeAt a e = some s →
      cntM q s ≤ cntM q e := by
  intro a
  induction a with
  | nil =>
    intro e s h
    simp only [subtreeAt, Option.some.injEq] at h
    subst h
    exact Nat.le_refl _
  | cons i rest ih =>
    intro e s h
    rcases e with ⟨t, x, ats, cs⟩
    rw [subtreeAt_cons] at h
    cases hc : cs[i]? with
    | none => rw [hc] at h; simp at h
    | some c =>
      rw [hc] at h
      have h1 := ih c s h
      have h2 := cntM_le_cntML q cs i c hc
      simp only [cntM]
      omega

/-- Removing the subtree at a valid non-root address subtracts exactly
its match count. -/
theorem cntM_removeAt (q : NodeSel) :
    ∀ (a : List Nat) (e : Element) (s : Element), a ≠ [] →
      subtreeAt a e = some s →
      cntM q (removeAt a e) = cntM q e - cntM q s := by
  intro a
  induction a with
  | nil => intro e s h; exact absurd rfl h
  | cons i a2 ih =>
    intro e s _ hsub
    rcases e with ⟨t, x, ats, cs⟩
    rw [subtreeAt_cons] at hsub
    cases hc : cs[i]? with
    | none => rw [hc] at hsub; simp at hsub
    | some c =>
      rw [hc] at hsub
      cases a2 with
      | nil =>
        simp only [subtreeAt, Option.some.injEq] at hsub
        subst hsub
        have hle := cntM_le_cntML q cs i c hc
        simp only [removeAt, cntM, cntML_eraseIdx q cs i c hc]
        omega
      | cons j rest =>
        have hrec := ih c s (by simp) hsub
        have hle1 := cnt_subtreeAt_le q (j :: rest) c s hsub
        have hle2 := cntM_le_cntML q cs i c hc
        simp only [removeAt, cntM,
          cntML_listModify q (fun c => removeAt (j :: rest) c) cs i c hc]
        simp only [hrec]
        omega

/-- The recursive match count agrees with the length of the address
list. -/
theorem cntM_eq_length (q : NodeSel) (e : Element) :
    cntM q e = (matchAddrs q e).length := by
  refine matchAddrs.induct q
    (fun e => cntM q e = (matchAddrs q e).length)
    (fun cs i => cntML q cs = (matchAddrsL q cs i).length)
    ?_ ?_ ?_ e
  · intro t x ats cs hcs
    simp only [cntM, matchAddrs, List.length_append, hcs]
    by_cases hq : q t x ats <;> simp [hq]
  · intro i; simp [cntML, matchAddrsL]
  · intro e es i he hes
    simp [cntML, matchAddrsL, he, hes]

theorem text_setTextOnly (v : String) (s : Element) :
    (setTextOnly v s).text = some v := by
  cases s; rfl

/-! ## Claim C1 -/

/-- C1 (amended): `set_element_text` returns a boolean — `True` exactly
when at least one element matches, `False` otherwise — not the match
count; the `xsl` editor variant writes the text of every match, while the
`filex` CLI variant writes only the document-order-first match and leaves
every other match's text unchanged. -/
theorem C1_set_text (q : NodeSel) (v : String) (doc : Element) :
    ((set_element_text q v doc).2 = true ↔ matchAddrs q doc ≠ []) ∧
    (∀ a ∈ matchAddrs q doc, textAt a (set_element_text q v doc).1 = some (some v)) ∧
    ((set_element_text_cli q v doc).2 = true ↔ matchAddrs q doc ≠ []) ∧
    (∀ a0 rest, matchAddrs q doc = a0 :: rest →
      textAt a0 (set_element_text_cli q v doc).1 = some (some v) ∧
      ∀ b ∈ matchAddrs q doc, b ≠ a0 →
        textAt b (set_element_text_cli q v doc).1 = textAt b doc) := by
  refine ⟨?_, ?_, ?_, ?_⟩
  · cases hm : matchAddrs q doc <;> simp [set_element_text, hm]
  · intro a ha
    obtain ⟨s, hs, hmt⟩ := matchAddrs_valid q doc a ha
    cases hm : matchAddrs q doc with
    | nil => rw [hm] at ha; simp at ha
    | cons a0 rest =>
      have h1 : (set_element_text q v doc).1 = setTextMatched q v doc := by
        simp [set_element_text, hm]
      rw [h1]
      unfold textAt
      rw [subtreeAt_setTextMatched, hs]
      simp [selMatch_text_set q v s hmt]
  · cases hm : matchAddrs q doc <;> simp [set_element_text_cli, hm]
  · intro a0 rest hm
    have h1 : (set_element_text_cli q v doc).1 = modifyAt (setTextOnly v) a0 doc := by
      simp [set_element_text_cli, hm]
    constructor
    · have ha0 : a0 ∈ matchAddrs q doc := by rw [hm]; simp
      obtain ⟨s, hs, _⟩ := matchAddrs_valid q doc a0 ha0
      rw [h1]
      unfold textAt
      rw [subtreeAt_modifyAt_self, hs]
      simp [text_setTextOnly]
    · intro b _ hb
      rw [h1]
      exact textAt_setTextOnly_other v a0 b doc hb

def selB : NodeSel := fun t _ _ => t == "b"

def docC1 : Element := .mk "r" none [] [.mk "b" none [] [], .mk "b" none [] []]

/-- Witness for C1 on a document with two matches. -/
theorem C1_set_text_witness :
    ([0] ∈ matchAddrs selB docC1 ∧ matchAddrs selB docC1 = [[0], [1]] ∧
      ([1] : List Nat) ≠ [0] ∧ [1] ∈ matchAddrs selB docC1) ∧
    (textAt [0] (set_element_text selB "v" docC1).1 = some (some "v") ∧
      textAt [0] (set_element_text_cli selB "v" docC1).1 = some (some "v") ∧
      textAt [1] (set_element_text_cli selB "v" docC1).1 = textAt [1] docC1) :=
  ⟨⟨by decide, by decide, by decide, by decide⟩,
   ⟨(C1_set_text selB "v" docC1).2.1 [0] (by decide),
    ((C1_set_text selB "v" docC1).2.2.2 [0] [[1]] (by decide)).1,
    ((C1_set_text selB "v" docC1).2.2.2 [0] [[1]] (by decide)).2 [1]
      (by decide) (by decide)⟩⟩

/-- C1 counterexample: on a document with two matches, both
`set_element_text` variants return `True` — which, read as Python's
integer, is 1, not the match count 2 — and the CLI variant does not set
the text of the second match. -/
theorem C1_cex :
    cntM selB docC1 = 2 ∧
    ((set_element_text_cli selB "v" docC1).2).toNat ≠ cntM selB docC1 ∧
    ((set_element_text selB "v" docC1).2).toNat ≠ cntM selB docC1 ∧
    textAt [1] (set_element_text_cli selB "v" docC1).1 ≠ some (some "v") ∧
    [1] ∈ matchAddrs selB docC1 := by decide

/-! ## Claim C3 -/

/-- C3 (amended): with zero matches `remove_element` returns `False`
(no exception), leaving the document unchanged; with at least one match
whose document-order-first address is not the root, it removes exactly
the subtree of that first match, so the match count decreases by the
number of matches inside the removed subtree (which is 1 precisely when
no other match sits below the first one). -/
theorem C3_remove_first (q : NodeSel) (doc : Element) :
    (matchAddrs q doc = [] → remove_element q doc = (doc, false)) ∧
    (∀ a rest, matchAddrs q doc = a :: rest → a ≠ [] →
      (remove_element q doc).2 = true ∧
      ∃ s, subtreeAt a doc = some s ∧ selMatch q s = true ∧
        cntM q (remove_element q doc).1 = cntM q doc - cntM q s) := by
  constructor
  · intro hm; simp [remove_element, hm]
  · intro a rest hm ha
    have hmem : a ∈ matchAddrs q doc := by rw [hm]; simp
    obtain ⟨s, hs, hsel⟩ := matchAddrs_valid q doc a hmem
    have h1 : remove_element q doc = (removeAt a doc, true) := by
      simp [remove_element, hm, ha]
    rw [h1]
    exact ⟨rfl, s, hs, hsel, cntM_removeAt q a doc s ha hs⟩

def docC3 : Element := .mk "r" none [] [.mk "b" none [] [.mk "b" none [] []]]

/-- Witness for C3: removal at the first match, and the zero-match case. -/
theorem C3_remove_first_witness :
    (matchAddrs (tagSel "zzz") docC3 = [] ∧
      remove_element (tagSel "zzz") docC3 = (docC3, false)) ∧
    (matchAddrs selB docC3 = [[0], [0, 0]] ∧ (([0] : List Nat) ≠ []) ∧
      ((remove_element selB docC3).2 = true ∧
        ∃ s, subtreeAt [0] docC3 = some s ∧ selMatch selB s = true ∧
          cntM selB (remove_element selB docC3).1 = cntM selB docC3 - cntM selB s)) :=
  ⟨⟨by decide, (C3_remove_first (tagSel "zzz") docC3).1 (by decide)⟩,
   ⟨by decide, by decide,
    (C3_remove_first selB docC3).2 [0] [[0, 0]] (by decide) (by decide)⟩⟩

/-- C3 counterexample: with two nested matches, removing the first match
drops the count by 2, not exactly 1; and with zero matches the function
returns `(doc, False)` instead of raising `NoSuchNodeError`. -/
theorem C3_cex :
    cntM selB docC3 = 2 ∧
    (remove_element selB docC3).2 = true ∧
    cntM selB (remove_element selB docC3).1 = 0 ∧
    ¬ cntM selB (remove_element selB docC3).1 = cntM selB docC3 - 1 ∧
    remove_element (tagSel "zzz") docC3 = (docC3, false) :=
  ⟨by decide, by decide, by decide, by decide, rfl⟩

/-! ## Claim C9 -/

/-- C9: `set_element_attribute` with a prefixed attribute name whose
prefix is not registered returns `False` and leaves the document
unchanged; no exception escapes. -/
theorem C9_unknown_attr (ns : List (String × String)) (q : NodeSel)
    (name value : String) (doc : Element)
    (h1 : hasColon name = true) (h2 : lookupA ns (pfxOf name) = none)
    (h3 : matchAddrs q doc ≠ []) :
    set_element_attribute ns q name value doc = (doc, false) := by
  cases hm : matchAddrs q doc with
  | nil => exact absurd hm h3
  | cons a rest =>
    simp [set_element_attribute, hm, attrKeyResolved, h1, h2]

/-- Witness for C9 with the unregistered prefix `foo`. -/
theorem C9_unknown_attr_witness :
    (hasColon "foo:bar" = true ∧ lookupA defaultNS (pfxOf "foo:bar") = none ∧
      matchAddrs selB docC1 ≠ []) ∧
    set_element_attribute defaultNS selB "foo:bar" "x" docC1 = (docC1, false) :=
  ⟨⟨by decide, by decide, by decide⟩,
    C9_unknown_attr defaultNS selB "foo:bar" "x" docC1
      (by decide) (by decide) (by decide)⟩

/-! ## Claim C10 -/

/-- C10: when the document-order-first match is the root (the only
parentless node), `remove_element` returns `False` and the tree is
unchanged, although the match count is nonzero. -/
theorem C10_remove_root (q : NodeSel) (doc : Element)
    (h : (matchAddrs q doc).head? = some []) :
    remove_element q doc = (doc, false) ∧ cntM q doc ≠ 0 := by
  cases hm : matchAddrs q doc with
  | nil => rw [hm] at h; simp at h
  | cons a rest =>
    rw [hm] at h
    simp only [List.head?_cons, Option.some.injEq] at h
    subst h
    constructor
    · simp [remove_element, hm]
    · rw [cntM_eq_length, hm]; simp

def docC10 : Element := .mk "b" none [] [.mk "b" none [] []]

/-- Witness for C10 on a document whose root is the first match. -/
theorem C10_remove_root_witness :
    ((matchAddrs selB docC10).head? = some []) ∧
    (remove_element selB docC10 = (docC10, false) ∧ cntM selB docC10 ≠ 0) :=
  ⟨by decide, C10_remove_root selB docC10 (by decide)⟩

/-! ## Claim C4 -/

theorem lookupA_nsUpdate_ne (p2 u : String) :
    ∀ (ns : List (String × String)) (p : String), p ≠ p2 →
      lookupA (nsUpdate p2 u ns) p = lookupA ns p := by
  intro ns
  induction ns with
  | nil =>
    intro p hp
    simp only [nsUpdate, lookupA]
    rw [if_neg (fun h => hp h.symm)]
  | cons kv rest ih =>
    intro p hp
    rcases kv with ⟨k, v⟩
    by_cases hk : k = p2
    · subst hk
      simp only [nsUpdate, if_pos rfl, lookupA]
      rw [if_neg (fun h => hp h.symm), if_neg (fun h => hp h.symm)]
    · simp only [nsUpdate, if_neg hk, lookupA]
      by_cases hkp : k = p
      · simp [hkp]
      · simp [hkp, ih p hp]

/-- C4: loading a document that redeclares `xlink` to a custom URI makes
`_get_attribute` resolve `xlink:href` through the custom URI (the
document's declaration overwrites the seeded entry), while every prefix
the document does not declare keeps its seeded URI. -/
theorem C4_ns_precedence (u val : String) (e : Element)
    (h1 : lookupA e.attrib "xlink:href" = none)
    (h2 : lookupA e.attrib ("\x7b" ++ u ++ "\x7d" ++ "href") = some val) :
    lookupA (absorb defaultNS [(some "xlink", u)]) "xlink" = some u ∧
    get_attribute (absorb defaultNS [(some "xlink", u)]) e "xlink:href" = some val ∧
    (∀ p, p ≠ "xlink" →
      lookupA (absorb defaultNS [(some "xlink", u)]) p = lookupA defaultNS p) := by
  have habs : absorb defaultNS [(some "xlink", u)] = nsUpdate "xlink" u defaultNS := rfl
  have hx : lookupA (nsUpdate "xlink" u defaultNS) "xlink" = some u := rfl
  refine ⟨habs ▸ hx, ?_, ?_⟩
  · simp only [get_attribute, h1]
    rw [if_pos (by decide : ("xlink:href".data.take 6 = "xlink:".data))]
    rw [habs, hx]
    simp only [Option.getD_some]
    exact h2
  · intro p hp
    rw [habs]
    exact lookupA_nsUpdate_ne "xlink" u defaultNS p hp

def eC4 : Element := .mk "image" none [("\x7bhttp://custom/ns\x7dhref", "val1")] []

/-- Witness for C4 with a concrete custom URI. -/
theorem C4_ns_precedence_witness :
    (lookupA eC4.attrib "xlink:href" = none ∧
      lookupA eC4.attrib ("\x7b" ++ "http://custom/ns" ++ "\x7d" ++ "href") =
        some "val1") ∧
    (lookupA (absorb defaultNS [(some "xlink", "http://custom/ns")]) "xlink" =
        some "http://custom/ns" ∧
      get_attribute (absorb defaultNS [(some "xlink", "http://custom/ns")]) eC4
        "xlink:href" = some "val1" ∧
      lookupA (absorb defaultNS [(some "xlink", "http://custom/ns")]) "svg" =
        lookupA defaultNS "svg") :=
  ⟨⟨by decide, by decide⟩,
    (C4_ns_precedence "http://custom/ns" "val1" eC4 (by decide) (by decide)).1,
    (C4_ns_precedence "http://custom/ns" "val1" eC4 (by decide) (by decide)).2.1,
    (C4_ns_precedence "http://custom/ns" "val1" eC4 (by decide) (by decide)).2.2
      "svg" (by decide)⟩

/-! ## Claim C7 -/

/-- The example document
`<svg xmlns:xlink="http://www.w3.org/1999/xlink"><image xlink:href="data:image/png;base64,iVBORw0KGgo="/></svg>`
as lxml parses it: the declaration sits in the `nsmap`, the attribute is
keyed by its expanded name. -/
def doc7 : Element :=
  .mk "svg" none []
    [.mk "image" none
      [("\x7bhttp://www.w3.org/1999/xlink\x7dhref",
        "data:image/png;base64,iVBORw0KGgo=")] []]

def ns7 : List (String × String) :=
  absorb defaultNS [(some "xlink", "http://www.w3.org/1999/xlink")]

/-- C7 counterexample: the extraction succeeds with mime type
`image/png` and a base64 payload — but the payload
`iVBORw0KGgo=` (12 characters, one padding byte) decodes to the 8-byte
PNG signature, not 9 raw bytes. -/
theorem C7_cex :
    extract_data_uri ns7 doc7 "//image/@xlink:href" =
      .ok ⟨"image/png", "base64", "charset=utf-8", true,
        [137, 80, 78, 71, 13, 10, 26, 10]⟩ "//image/@xlink:href" ∧
    ([137, 80, 78, 71, 13, 10, 26, 10] : List Nat).length ≠ 9 :=
  ⟨by decide, by decide⟩

/-- C7 (amended): on the example document,
`extract_data_uri("//image/@xlink:href")` succeeds and returns mime type
`image/png`, `is_base64 = True`, and a payload of 8 raw bytes (the PNG
signature). -/
theorem C7_extract :
    ∃ d, extract_data_uri ns7 doc7 "//image/@xlink:href" =
        .ok d "//image/@xlink:href" ∧
      d.mime_type = "image/png" ∧ d.is_base64 = true ∧
      d.data = [137, 80, 78, 71, 13, 10, 26, 10] ∧ d.data.length = 8 :=
  ⟨⟨"image/png", "base64", "charset=utf-8", true,
    [137, 80, 78, 71, 13, 10, 26, 10]⟩,
    by decide, by decide, by decide, by decide, by decide⟩

/-! ## Claim C8 -/

/-- C8: the loader attempts the full parser, falls back exactly once to
the minimal parser, and when both reject the input it fails with the
error carrying the fallback parser's diagnostic — no tree is produced. -/
theorem C8_parse_fallback (lxmlParse : String → Except String LxmlDoc)
    (etParse : String → Except String Element) (ns0 : List (String × String))
    (content : String) (d1 d2 : String)
    (h1 : lxmlParse content = .error d1) (h2 : etParse content = .error d2) :
    parse_content lxmlParse etParse ns0 content =
      .error ("Cannot parse file: " ++ d2) := by
  unfold parse_content
  rw [h1, h2]

/-- Modelled from the spec: the two parser backends (lxml and
`xml.etree`) are external libraries; §8 records that both reject the
truncated markup `<root><unclosed>`.  The models below enforce the
weakest well-formedness condition any XML parser enforces — a document
whose markup never closes an element (no `/` anywhere) is rejected — and
stub the success value, which no claim uses. -/
def xmlHasCloseMarker (s : String) : Bool := s.data.any (· = '/')

def lxmlModel (s : String) : Except String LxmlDoc :=
  if xmlHasCloseMarker s then .ok ⟨default, []⟩
  else .error "Premature end of data in tag"

def etModel (s : String) : Except String Element :=
  if xmlHasCloseMarker s then .ok default else .error "no element found"

/-- Witness for C8: both modelled backends reject `<root><unclosed>` and
the loader surfaces the fallback's diagnostic. -/
theorem C8_parse_fallback_witness :
    (lxmlModel "<root><unclosed>" = .error "Premature end of data in tag" ∧
      etModel "<root><unclosed>" = .error "no element found") ∧
    parse_content lxmlModel etModel defaultNS "<root><unclosed>" =
      .error ("Cannot parse file: " ++ "no element found") :=
  ⟨⟨rfl, rfl⟩,
    C8_parse_fallback lxmlModel etModel defaultNS "<root><unclosed>"
      "Premature end of data in tag" "no element found" rfl rfl⟩
